import Mathlib

/-!
# Verification of the ImgSearch vector store and RPC service

Shallow embedding of `src/imgsearch/storage.py` (class `VectorDB`),
`src/imgsearch/server.py` (class `RPCService`), the helpers of
`src/imgsearch/utils.py` it uses (`multi_remove`, `multi_pop`), and the
constants of `src/imgsearch/config.py`.

The underlying ANN structure (`hnswlib.Index`) is an external library.  It is
embedded here through the Vector Index contract of the specification (§4.2):
a bounded slot store with soft deletion, where a tombstoned slot is reused in
place by a later insert with replace semantics (so reuse does not raise the
element count), an insert with an id that is already present updates the
stored vector in place, and a fresh insert appends a slot, failing when the
structure already holds `max_elements` slots.  `knn_query` is kept abstract:
search takes the ANN answer as an oracle parameter.

Python floats are embedded as rationals; `round(x, 1)` is embedded as
round-half-up to one decimal (ties at exact multiples of 0.05 are the only
difference from Python's round-half-even, and no statement below depends on
a tie).
-/

/-! ## Definitions: the embedded store, the service, and the concrete states used below -/

/-- `config.CAPACITY`: initial index capacity and growth increment. -/
def CAPACITY : Nat := 10000

/-- `config.BATCH_SIZE`: images per processing batch. -/
def BATCH_SIZE : Nat := 100

/-- A feature vector (`list[float]` in the source). -/
abbrev Vec := List ℚ

/-- One slot of the ANN structure: an external id, a tombstone flag and the
stored vector. -/
structure Slot where
  id : Nat
  deleted : Bool
  vec : Vec
deriving DecidableEq

/-- The ANN index (`hnswlib.Index`) as seen through the contract of spec
§4.2: capacity, construction parameters and the slot store. -/
structure HnswIndex where
  max_elements : Nat
  ef_construction : Nat
  M : Nat
  slots : List Slot
deriving DecidableEq

/-- `index.element_count`: number of slots in use, tombstoned slots
included (soft deletion does not decrement it, and a replace-deleted insert
reuses a slot without incrementing it). -/
def HnswIndex.element_count (idx : HnswIndex) : Nat := idx.slots.length

/-- `index.get_ids_list()`: the external ids of all slots, tombstoned ones
included. -/
def HnswIndex.ids_list (idx : HnswIndex) : List Nat := idx.slots.map Slot.id

/-- Errors surfaced by the embedded operations (Python exceptions). -/
inductive DBErr where
  | indexFull
  | labelNotFound
  | idNotFound
  | valueDup
  | lengthMismatch
  | invalidSimilarity
  | inconsistent
  | embedFailed
deriving DecidableEq

/-- Replace the first tombstoned slot in place with a fresh live slot
(replace-deleted semantics: the vacant slot is reused, the old external id of
that slot disappears, and the slot count is unchanged). -/
def replaceFirstDeleted : List Slot → Nat → Vec → List Slot
  | [], _, _ => []
  | s :: rest, id, v =>
      if s.deleted then ⟨id, false, v⟩ :: rest
      else s :: replaceFirstDeleted rest id v

/-- Update the vector of the first slot holding the given external id. -/
def updateById : List Slot → Nat → Vec → List Slot
  | [], _, _ => []
  | s :: rest, id, v =>
      if s.id = id then ⟨id, s.deleted, v⟩ :: rest
      else s :: updateById rest id v

/-- One `add_items` element with `replace_deleted=True` (hnswlib
`addPoint`): if a tombstoned slot exists it is reused in place for the new
id; otherwise an existing id is updated in place; otherwise a fresh slot is
appended, failing when the structure is full. -/
def HnswIndex.addOne (idx : HnswIndex) (id : Nat) (v : Vec) : Except DBErr HnswIndex :=
  if idx.slots.any Slot.deleted then
    .ok { idx with slots := replaceFirstDeleted idx.slots id v }
  else if idx.slots.any (fun s => s.id = id) then
    .ok { idx with slots := updateById idx.slots id v }
  else if idx.max_elements ≤ idx.slots.length then
    .error .indexFull
  else
    .ok { idx with slots := idx.slots ++ [⟨id, false, v⟩] }

/-- `index.add_items(features, ids, replace_deleted=True)`: the elements are
inserted one by one. -/
def HnswIndex.addItems (idx : HnswIndex) (pairs : List (Vec × Nat)) : Except DBErr HnswIndex :=
  pairs.foldlM (fun acc p => acc.addOne p.2 p.1) idx

/-- Mark the first live slot holding the given id as deleted; `none` when no
live slot holds it. -/
def markFirstLive : List Slot → Nat → Option (List Slot)
  | [], _ => none
  | s :: rest, id =>
      if s.id = id ∧ s.deleted = false then some (⟨id, true, s.vec⟩ :: rest)
      else (markFirstLive rest id).map (s :: ·)

/-- `index.mark_deleted(id)`: tombstone a live id, failing when it is absent
or already tombstoned. -/
def HnswIndex.mark_deleted (idx : HnswIndex) (id : Nat) : Except DBErr HnswIndex :=
  match markFirstLive idx.slots id with
  | some slots => .ok { idx with slots := slots }
  | none => .error .idNotFound

/-- `index.resize_index(n)`. -/
def HnswIndex.resize_index (idx : HnswIndex) (n : Nat) : HnswIndex :=
  { idx with max_elements := n }

/-- `VectorDB.new_index`: a fresh empty index (`ef_construction=400`,
`max_conn=32`, default capacity `cfg.CAPACITY`). -/
def VectorDB.new_index (max_elements : Nat) (ef : Nat) (max_conn : Nat) : HnswIndex :=
  ⟨max_elements, ef, max_conn, []⟩

/-- The bidirectional id-to-label mapping (`bidict[int, str]`), as an
association list with unique keys and unique values. -/
abbrev Mapping := List (Nat × String)

/-- Forward lookup `mapping.get(id)` / `mapping[id]`. -/
def Mapping.lookupId (m : Mapping) (id : Nat) : Option String :=
  (m.find? (fun p => p.1 = id)).map Prod.snd

/-- Inverse lookup `mapping.inv[label]` as an `Option`. -/
def Mapping.lookupLabel (m : Mapping) (label : String) : Option Nat :=
  (m.find? (fun p => p.2 = label)).map Prod.fst

/-- `label in mapping.inv`. -/
def Mapping.hasLabel (m : Mapping) (label : String) : Bool :=
  m.any (fun p => p.2 = label)

/-- `mapping[id] = label` with bidict semantics: a duplicated value raises
`ValueDuplicationError`; a duplicated key silently rebinds the key (the old
association is dropped). -/
def Mapping.setItem (m : Mapping) (id : Nat) (label : String) : Except DBErr Mapping :=
  if m.any (fun p => p.2 = label ∧ p.1 ≠ id) then .error .valueDup
  else .ok (m.filter (fun p => p.1 ≠ id) ++ [(id, label)])

/-- `del mapping[id]`: a missing key raises `KeyError`. -/
def Mapping.eraseId (m : Mapping) (id : Nat) : Except DBErr Mapping :=
  if m.any (fun p => p.1 = id) then .ok (m.filter (fun p => p.1 ≠ id))
  else .error .idNotFound

/-- The mapping loop of `add_items` (`self.mapping[self.next_id + i] = label`). -/
def setMany (m : Mapping) (pairs : List (Nat × String)) : Except DBErr Mapping :=
  pairs.foldlM (fun acc p => Mapping.setItem acc p.1 p.2) m

/-- A `VectorDB` instance: the index, the mapping, and the state of the two
durable files (`none` when the files are absent). -/
structure DB where
  index : HnswIndex
  mapping : Mapping
  disk : Option (HnswIndex × Mapping)
deriving DecidableEq

/-- A freshly initialised store (no files on disk yet). -/
def VectorDB.empty : DB := ⟨VectorDB.new_index CAPACITY 400 32, [], none⟩

/-- `len(db)` / `db.count`: number of items in the mapping. -/
def DB.count (db : DB) : Nat := db.mapping.length

/-- `db.next_id`: `self.index.element_count + 1`. -/
def DB.next_id (db : DB) : Nat := db.index.element_count + 1

/-- `db.capacity`: `self.index.max_elements`. -/
def DB.capacity (db : DB) : Nat := db.index.max_elements

/-- `db.next_capacity`: `self.index.max_elements + cfg.CAPACITY`. -/
def DB.next_capacity (db : DB) : Nat := db.index.max_elements + CAPACITY

/-- `db.save()`: write the index and mapping snapshots to the two files. -/
def DB.save (db : DB) : DB := { db with disk := some (db.index, db.mapping) }

/-- `VectorDB.add_item(label, feature, overwrite)`. -/
def DB.add_item (db : DB) (label : String) (feature : Vec) (overwrite : Bool) : Except DBErr (DB × Bool) :=
  match Mapping.lookupLabel db.mapping label with
  | some fid =>
      if overwrite = false then .ok (db, false)
      else do
        let idx ← db.index.addOne fid feature
        .ok ((DB.save { db with index := idx }), true)
  | none =>
      let db1 := if db.capacity ≤ db.count then { db with index := db.index.resize_index db.next_capacity } else db
      let fid := db1.next_id
      do
        let m ← Mapping.setItem db1.mapping fid label
        let idx ← db1.index.addOne fid feature
        .ok ((DB.save { db1 with mapping := m, index := idx }), true)

/-- `utils.multi_remove(lst, values)`: drop every element of `values` from
`lst`, returning the kept list and the removed indices. -/
def multiRemoveAux : List String → List String → Nat → List String × List Nat
  | [], _, _ => ([], [])
  | v :: rest, vals, i =>
      let r := multiRemoveAux rest vals (i + 1)
      if vals.contains v then (r.1, i :: r.2) else (v :: r.1, r.2)

/-- `utils.multi_remove` at index 0. -/
def multi_remove (lst : List String) (values : List String) : List String × List Nat :=
  multiRemoveAux lst values 0

/-- `utils.multi_pop(lst, indices)`: split `lst` into the kept elements and
the popped ones. -/
def multiPopAux : List Vec → List Nat → Nat → List Vec × List Vec
  | [], _, _ => ([], [])
  | v :: rest, idxs, i =>
      let r := multiPopAux rest idxs (i + 1)
      if idxs.contains i then (r.1, v :: r.2) else (v :: r.1, r.2)

/-- `utils.multi_pop` at index 0. -/
def multi_pop (lst : List Vec) (indices : List Nat) : List Vec × List Vec :=
  multiPopAux lst indices 0

/-- `sorted(...)` over labels (Python sorts strings lexicographically). -/
def sortStrings (l : List String) : List String :=
  l.insertionSort (fun a b => a < b)

/-- `VectorDB.add_items(labels, features, overwrite=True)`. -/
def DB.add_items (db : DB) (labels : List String) (features : List Vec) (overwrite : Bool) : Except DBErr (DB × Nat) :=
  if labels.length ≠ features.length then .error .lengthMismatch
  else
    let existing_labels := sortStrings ((labels.filter (fun l => Mapping.hasLabel db.mapping l)).dedup)
    let r1 := multi_remove labels existing_labels
    let labels2 := r1.1
    let r2 := multi_pop features r1.2
    let features2 := r2.1
    let features_to_overwrite := r2.2
    do
      let s1 ←
        if existing_labels ≠ [] then
          if existing_labels.length ≠ features_to_overwrite.length then .error .lengthMismatch
          else if overwrite then do
            let existing_ids := existing_labels.map (fun l => (Mapping.lookupLabel db.mapping l).getD 0)
            let idx ← db.index.addItems (features_to_overwrite.zip existing_ids)
            pure ({ db with index := idx }, existing_labels.length)
          else pure (db, 0)
        else pure (db, 0)
      let db1 := s1.1
      let incr_size := features2.length
      let s2 ←
        if 0 < incr_size ∧ labels2.length = incr_size then do
          let db2 := if db1.capacity < db1.count + incr_size then { db1 with index := db1.index.resize_index db1.next_capacity } else db1
          let ids := List.range' db2.next_id incr_size
          let m ← setMany db2.mapping (ids.zip labels2)
          let idx ← db2.index.addItems (features2.zip ids)
          pure ({ db2 with mapping := m, index := idx }, s1.2 + incr_size)
        else pure (db1, s1.2)
      if 0 < s2.2 then pure (DB.save s2.1, s2.2) else pure s2

/-- `index.get_items([fid])` for a live id (used by `rebuild`). -/
def getVec (idx : HnswIndex) (fid : Nat) : Vec :=
  ((idx.slots.find? (fun s => s.id = fid ∧ s.deleted = false)).map Slot.vec).getD []

/-- `VectorDB.rebuild`: re-insert every live vector into a fresh index at
the same capacity, reassigning dense ids `1..n` in mapping order, then
save. -/
def DB.rebuild (db : DB) : DB :=
  let newSlots := db.mapping.enum.map (fun p => (⟨p.1 + 1, false, getVec db.index p.2.1⟩ : Slot))
  let newMapping : Mapping := db.mapping.enum.map (fun p => (p.1 + 1, p.2.2))
  DB.save { db with
    index := ⟨db.capacity, db.index.ef_construction, db.index.M, newSlots⟩,
    mapping := newMapping }

/-- The id computed for one key of `delete` (`self.mapping.inv[key]` for a
string label, the key itself for an int). -/
def keyToFid (db : DB) (key : Nat ⊕ String) : Except DBErr Nat :=
  match key with
  | .inl n => .ok n
  | .inr label =>
      match Mapping.lookupLabel db.mapping label with
      | some fid => .ok fid
      | none => .error .labelNotFound

/-- One iteration of the `delete` loop: resolve the key, tombstone it in the
index, remove it from the mapping.  The returned state is the state the
in-memory store is left in, also when the step raises. -/
def DB.deleteStep (db : DB) (key : Nat ⊕ String) : DB × Option DBErr :=
  match keyToFid db key with
  | .error e => (db, some e)
  | .ok fid =>
      match db.index.mark_deleted fid with
      | .error e => (db, some e)
      | .ok idx =>
          let db1 := { db with index := idx }
          match Mapping.eraseId db1.mapping fid with
          | .error e => (db1, some e)
          | .ok m => ({ db1 with mapping := m }, none)

/-- The `for key in keys` loop of `delete`: keys are processed strictly in
argument order, stopping at the first raised error. -/
def DB.deleteRun (db : DB) : List (Nat ⊕ String) → DB × Option DBErr
  | [] => (db, none)
  | k :: ks =>
      match db.deleteStep k with
      | (db1, none) => db1.deleteRun ks
      | (db1, some e) => (db1, some e)

/-- `VectorDB.delete(*keys, rebuild)`: the loop, then (only when no key
raised) the optional rebuild and the save. -/
def DB.delete (db : DB) (keys : List (Nat ⊕ String)) (rebuild : Bool) : DB × Option DBErr :=
  match db.deleteRun keys with
  | (db1, none) =>
      let db2 := if rebuild then db1.rebuild else db1
      (db2.save, none)
  | r => r

/-- `VectorDB.load_db`: create a fresh empty pair when no files exist, else
load both files and refuse an inconsistent pair (every mapping key must be
an id known to the index). -/
def VectorDB.load_db (disk : Option (HnswIndex × Mapping)) : Except DBErr (HnswIndex × Mapping) :=
  match disk with
  | none => .ok (VectorDB.new_index CAPACITY 400 32, [])
  | some (idx, m) =>
      if (m.map Prod.fst).all (fun fid => idx.ids_list.contains fid) then .ok (idx, m)
      else .error .inconsistent

/-- The `set_ef` argument of `search`:
`min(max(min(k, count) * 3, 150), 300)` (lines 335-336 of storage.py). -/
def search_ef (k count : Nat) : Nat :=
  min (max (min k count * 3) 150) 300

/-- Modelled from the spec: the search-breadth policy as §4.2 words it,
`search_breadth = clamp(k * 3, 150, 300)`, a function of the requested `k`
alone. -/
def spec_search_breadth (k : Nat) : Nat :=
  min (max (k * 3) 150) 300

/-- Python `round(x, 1)` (round half up; see the module comment). -/
def round1 (q : ℚ) : ℚ := (round (q * 10) : ℚ) / 10

/-- One iteration of the result loop of `search`: keep the pair only when
the mapping knows the id, convert distance to
`round((1.0 - distance) * 100, 1)` and keep it only at or above the
threshold. -/
def resOpt (m : Mapping) (similarity : ℚ) (p : Nat × ℚ) : Option (String × ℚ) :=
  match Mapping.lookupId m p.1 with
  | none => none
  | some label =>
      if similarity ≤ round1 ((1 - p.2) * 100) then some (label, round1 ((1 - p.2) * 100))
      else none

/-- The result loop of `search`. -/
def toResults (m : Mapping) (knnRes : List (Nat × ℚ)) (similarity : ℚ) : List (String × ℚ) :=
  knnRes.filterMap (resOpt m similarity)

/-- `VectorDB.search(feature, k, similarity)`.  The ANN answer is an oracle
`knn ef k` returning (id, cosine distance) pairs nearest first. -/
def DB.search (db : DB) (knn : Nat → Nat → List (Nat × ℚ)) (feature : Vec) (k : Nat) (similarity : ℚ) : Except DBErr (List (String × ℚ)) :=
  if db.count = 0 ∨ feature = [] then .ok []
  else if similarity < 0 ∨ 100 < similarity then .error .invalidSimilarity
  else
    let search_k := min k db.count
    .ok (toResults db.mapping (knn (search_ef k db.count) search_k) similarity)

/-- An ANN oracle returning no neighbours. -/
def knn0 : Nat → Nat → List (Nat × ℚ) := fun _ _ => []

/-- Run an `add_item` result, falling back to the given state on error. -/
def okDB (e : Except DBErr (DB × Bool)) (fb : DB) : DB :=
  match e with
  | .ok p => p.1
  | .error _ => fb

/-- Run an `add_items` result, falling back to the given state on error. -/
def okDBn (e : Except DBErr (DB × Nat)) (fb : DB) : DB :=
  match e with
  | .ok p => p.1
  | .error _ => fb

/-- A store holding one item under label `a` (the state reached by adding
one item to a fresh store, disk state elided). -/
def dbOne : DB := ⟨⟨10000, 400, 32, [⟨1, false, [1]⟩]⟩, [(1, "a")], none⟩

/-- The C1 scenario, step 1: add labels a, b, c to a fresh store. -/
def c1s1 : DB := okDBn (VectorDB.empty.add_items ["a", "b", "c"] [[1], [2], [3]] true) VectorDB.empty

/-- The C1 scenario, step 2: delete b and c (tombstoned, not compacted). -/
def c1s2 : DB := (c1s1.delete [Sum.inr "b", Sum.inr "c"] false).1

/-- The C1 scenario, step 3: add a new label d; it reuses a tombstoned slot,
so the element count does not grow. -/
def c1s3 : DB := okDB (c1s2.add_item "d" [4] true) c1s2

/-- The C1 scenario, step 4: add a new label e. -/
def c1s4 : DB := okDB (c1s3.add_item "e" [5] true) c1s3

/-- `self.max_concurrent_searches = max(2, cfg.BATCH_SIZE // 2)`. -/
def max_concurrent_searches : Nat := max 2 (BATCH_SIZE / 2)

/-- The payload shapes `handle_search` dispatches on: a text query, image
bytes, a dict carrying image data, a dict without usable data, or any other
type. -/
inductive Query where
  | text (s : String)
  | imageBytes (b : List Nat)
  | dictData (b : List Nat)
  | dictBad
  | other
deriving DecidableEq

/-- The body of the `try` block of `handle_search`: embed the query (the
CLIP model is an oracle that may fail), then run the store search; a dict
without usable data or an unsupported payload returns the empty list. -/
def searchBody (embedText : String → Except DBErr Vec) (embedImage : List Nat → Except DBErr Vec)
    (db : DB) (knn : Nat → Nat → List (Nat × ℚ)) (query : Query) (k : Nat) (similarity : ℚ) :
    Except DBErr (List (String × ℚ)) :=
  match query with
  | .text s => do
      let f ← embedText s
      db.search knn f k similarity
  | .imageBytes b => do
      let f ← embedImage b
      db.search knn f k similarity
  | .dictData b => do
      let f ← embedImage b
      db.search knn f k similarity
  | .dictBad => .ok []
  | .other => .ok []

/-- `RPCService.handle_search`: a non-blocking semaphore acquire (modelled
by the free-permit count); on failure return `None` at once; on success run
the body, mapping any raised error to the empty list (`except`), and release
the permit on every exit path (`finally`).  Returns the RPC result and the
free-permit count after the call. -/
def handle_search (freePermits : Nat)
    (embedText : String → Except DBErr Vec) (embedImage : List Nat → Except DBErr Vec)
    (db : DB) (knn : Nat → Nat → List (Nat × ℚ)) (query : Query) (k : Nat) (similarity : ℚ) :
    Option (List (String × ℚ)) × Nat :=
  if freePermits = 0 then (none, freePermits)
  else
    let res :=
      match searchBody embedText embedImage db knn query k similarity with
      | .ok rs => rs
      | .error _ => []
    (some res, freePermits - 1 + 1)

/-- One pending item of the ingestion queue: label, decoded image and
destination database name. -/
structure QItem where
  label : String
  img : Nat
  dbName : String
deriving DecidableEq

/-- `self.image_queue = Queue(maxsize=cfg.BATCH_SIZE * 3)`. -/
def queue_maxsize : Nat := BATCH_SIZE * 3

/-- The observable outcome of a `handle_add_images` call: a returned count
with the final queue contents, a call blocked inside `Queue.put` waiting for
space, or a propagated decoding error. -/
inductive AddOutcome where
  | returns (count : Nat) (queue : List QItem)
  | blockedOnPut
  | raises
deriving DecidableEq

/-- The `for label, image_bytes in images.items()` loop of
`handle_add_images`: decode the bytes (`bytes2img`; a failure propagates,
since only `queue.Full` is caught), then `self.image_queue.put(...)`.
`Queue.put` is called with its default `block=True`, so on a full queue the
call waits for space instead of raising `queue.Full`; the `except Full`
branch is unreachable. -/
def addImagesLoop (decode : List Nat → Option Nat) (dbName : String) :
    List (String × List Nat) → List QItem → Nat → AddOutcome
  | [], q, c => .returns c q
  | (label, b) :: rest, q, c =>
      match decode b with
      | none => .raises
      | some img =>
          if queue_maxsize ≤ q.length then .blockedOnPut
          else addImagesLoop decode dbName rest (q ++ [⟨label, img, dbName⟩]) (c + 1)

/-- `RPCService.handle_add_images(images, db_name)` against a queue holding
`q` pending items. -/
def handle_add_images (decode : List Nat → Option Nat) (images : List (String × List Nat))
    (dbName : String) (q : List QItem) : AddOutcome :=
  addImagesLoop decode dbName images q 0

/-- A queue already holding `maxsize` pending items. -/
def fullQueue : List QItem := List.replicate queue_maxsize ⟨"p", 0, "default"⟩

/-- A saved store holding labels a and b. -/
def dbTwo : DB :=
  ⟨⟨10000, 400, 32, [⟨1, false, [1]⟩, ⟨2, false, [2]⟩]⟩, [(1, "a"), (2, "b")],
    some (⟨10000, 400, 32, [⟨1, false, [1]⟩, ⟨2, false, [2]⟩]⟩, [(1, "a"), (2, "b")])⟩

/-- The state of `dbTwo` after deleting label a only: slot 1 tombstoned, key
1 unmapped, disk untouched. -/
def c10mid : DB :=
  ⟨⟨10000, 400, 32, [⟨1, true, [1]⟩, ⟨2, false, [2]⟩]⟩, [(2, "b")],
    some (⟨10000, 400, 32, [⟨1, false, [1]⟩, ⟨2, false, [2]⟩]⟩, [(1, "a"), (2, "b")])⟩

/-- An ANN oracle answering with two neighbours at distances 0 and 1. -/
def knnW : Nat → Nat → List (Nat × ℚ) := fun _ _ => [(1, 0), (2, 1)]

/-- The result list `search` produces for `knnW` over `dbTwo`. -/
def c5rs : List (String × ℚ) := [("a", 100), ("b", 0)]

/-- The store states reachable by add operations alone from a fresh store:
no tombstones, slot ids exactly `1..n` in order, mapping keys equal to the
slot ids, live count within capacity, and pairwise distinct labels. -/
def Clean (db : DB) : Prop :=
  (∀ s ∈ db.index.slots, s.deleted = false) ∧
  db.index.ids_list = List.range' 1 db.index.slots.length ∧
  db.mapping.map Prod.fst = List.range' 1 db.mapping.length ∧
  db.mapping.length = db.index.slots.length ∧
  db.mapping.length ≤ db.index.max_elements ∧
  (db.mapping.map Prod.snd).Nodup

/-- 20001 distinct labels (label `i` is the string of `i` letters a). -/
def c2Labels : List String := (List.range 20001).map (fun i => String.mk (List.replicate i 'a'))

/-- 20001 feature vectors. -/
def c2Features : List Vec := List.replicate 20001 [1]

/-- A sequence of `add_item` calls, stopping at the first error. -/
def applyAdds : DB → List (String × Vec) → Except DBErr DB
  | db, [] => .ok db
  | db, (l, f) :: rest =>
      match db.add_item l f true with
      | .ok p => applyAdds p.1 rest
      | .error e => .error e

/-! ## Theorems -/

/-- Claim C1: a key is bound to at most one label while the mapping is live,
for every interleaving of adds and deletes, with `next_id` derived from the
index element count.  The code violates this: after adding a, b, c, deleting
b and c, and adding d (which reuses a tombstoned slot, so `element_count`
stays 3), the store allocates key 4 for d, and the very next add of a fresh
label e computes `next_id = 4` again — a key currently live and bound to d.
The bidict assignment silently rebinds key 4 to e and label d is lost
although it was never deleted. -/
theorem c1_key_reuse_bug :
    (VectorDB.empty.add_items ["a", "b", "c"] [[1], [2], [3]] true).isOk = true ∧
    (c1s1.delete [Sum.inr "b", Sum.inr "c"] false).2 = none ∧
    (c1s2.add_item "d" [4] true).isOk = true ∧
    c1s3.next_id = 4 ∧
    Mapping.lookupId c1s3.mapping 4 = some "d" ∧
    Mapping.hasLabel c1s3.mapping "d" = true ∧
    (c1s3.add_item "e" [5] true).isOk = true ∧
    Mapping.lookupId c1s4.mapping 4 = some "e" ∧
    Mapping.hasLabel c1s4.mapping "d" = false := by decide

/-- Claim C3 (amended): `search` validates the similarity threshold only
after the emptiness fast path.  On a store with live entries and a non-empty
query vector, an out-of-range threshold raises the invalid-argument error;
but when the store has zero live entries or the query vector is empty, the
call returns the empty list even for an out-of-range threshold. -/
theorem c3_validation_after_empty_check (db : DB) (knn : Nat → Nat → List (Nat × ℚ))
    (f : Vec) (k : Nat) (s : ℚ) (hs : s < 0 ∨ 100 < s) :
    (db.count ≠ 0 → f ≠ [] → db.search knn f k s = .error .invalidSimilarity) ∧
    ((db.count = 0 ∨ f = []) → db.search knn f k s = .ok []) := by
  constructor
  · intro h1 h2
    unfold DB.search
    rw [if_neg (by simp [h1, h2]), if_pos hs]
  · intro h
    unfold DB.search
    rw [if_pos h]

/-- Claim C3, the original statement refuted: on an empty store, `search`
with threshold 101 returns the empty list instead of raising the
invalid-argument error. -/
theorem c3_counterexample :
    VectorDB.empty.search knn0 [1] 10 101 = .ok [] := by rfl

/-- Witness for C3 at concrete inputs: a one-item store raises on threshold
101, the empty store returns the empty list. -/
theorem c3_validation_witness :
    dbOne.search knn0 [1] 10 101 = .error .invalidSimilarity ∧
    VectorDB.empty.search knn0 [1] 10 101 = .ok [] :=
  ⟨(c3_validation_after_empty_check dbOne knn0 [1] 10 101 (Or.inr (by norm_num))).1
      (by decide) (by decide),
   (c3_validation_after_empty_check VectorDB.empty knn0 [1] 10 101 (Or.inr (by norm_num))).2
      (Or.inl (by decide))⟩

/-- Claim C4 (amended): the search breadth set before the ANN query is the
spec clamp applied to `min(k, live count)`, not to `k`: it is 150 when
`min(k, count) * 3 < 150`, 300 when `min(k, count) * 3 > 300`, and
`min(k, count) * 3` in between. -/
theorem c4_search_breadth (k count : Nat) :
    (min k count * 3 < 150 → search_ef k count = 150) ∧
    (300 < min k count * 3 → search_ef k count = 300) ∧
    (150 ≤ min k count * 3 → min k count * 3 ≤ 300 → search_ef k count = min k count * 3) ∧
    search_ef k count = spec_search_breadth (min k count) := by
  unfold search_ef spec_search_breadth
  omega

/-- Claim C4, the original statement refuted: for `k = 100` on a store with
one live entry, `k * 3 = 300` so the claim demands breadth 300, but the code
sets `min(max(min(k, count) * 3, 150), 300) = 150`. -/
theorem c4_counterexample :
    search_ef 100 1 = 150 ∧ spec_search_breadth 100 = 300 := by decide

/-- Witness for C4 at concrete inputs. -/
theorem c4_search_breadth_witness : search_ef 10 5 = 150 :=
  (c4_search_breadth 10 5).1 (by decide)

/-- Claim C6: the admission semaphore is acquired non-blockingly; with no
free permit `handle_search` returns the distinct reject sentinel `None`
(never an empty list, never an error), and an admitted call always returns
`some` result and restores the free-permit count whatever the body does,
errors included. -/
theorem c6_admission (freePermits : Nat)
    (embedText : String → Except DBErr Vec) (embedImage : List Nat → Except DBErr Vec)
    (db : DB) (knn : Nat → Nat → List (Nat × ℚ)) (query : Query) (k : Nat) (similarity : ℚ) :
    (freePermits = 0 →
      handle_search freePermits embedText embedImage db knn query k similarity = (none, freePermits) ∧
      ∀ rs : List (String × ℚ), (none : Option (List (String × ℚ))) ≠ some rs) ∧
    (0 < freePermits →
      (∃ rs, (handle_search freePermits embedText embedImage db knn query k similarity).1 = some rs) ∧
      (handle_search freePermits embedText embedImage db knn query k similarity).2 = freePermits) := by
  constructor
  · intro h
    subst h
    exact ⟨rfl, fun rs => Option.noConfusion⟩
  · intro h
    unfold handle_search
    rw [if_neg (Nat.pos_iff_ne_zero.mp h)]
    refine ⟨⟨_, rfl⟩, ?_⟩
    show freePermits - 1 + 1 = freePermits
    omega

/-- Witness for C6 at concrete inputs: a saturated call is rejected with
`None`; an admitted call returns a result and leaves one permit free. -/
theorem c6_admission_witness :
    handle_search 0 (fun _ => .ok [1]) (fun _ => .ok [1]) VectorDB.empty knn0 (.text "q") 10 0 = (none, 0) ∧
    (handle_search 1 (fun _ => .ok [1]) (fun _ => .ok [1]) VectorDB.empty knn0 (.text "q") 10 0).2 = 1 :=
  ⟨((c6_admission 0 (fun _ => .ok [1]) (fun _ => .ok [1]) VectorDB.empty knn0 (.text "q") 10 0).1 rfl).1,
   ((c6_admission 1 (fun _ => .ok [1]) (fun _ => .ok [1]) VectorDB.empty knn0 (.text "q") 10 0).2
      (by decide)).2⟩

/-- Claim C9: after admission, `handle_search` never propagates an error to
the RPC caller: whenever the try-block body raises (embedding failure or the
store-level invalid-argument error), the call returns `some []` with the
permit restored — the same observable outcome as a body that genuinely
returns the empty result — so only admission saturation (`none`) is
distinguishable at the boundary. -/
theorem c9_errors_return_empty (freePermits : Nat)
    (embedText embedText2 : String → Except DBErr Vec) (embedImage embedImage2 : List Nat → Except DBErr Vec)
    (db db2 : DB) (knn knn2 : Nat → Nat → List (Nat × ℚ)) (query query2 : Query)
    (k k2 : Nat) (similarity similarity2 : ℚ) (e : DBErr)
    (hfree : 0 < freePermits)
    (herr : searchBody embedText embedImage db knn query k similarity = .error e)
    (hempty : searchBody embedText2 embedImage2 db2 knn2 query2 k2 similarity2 = .ok []) :
    handle_search freePermits embedText embedImage db knn query k similarity = (some [], freePermits) ∧
    handle_search freePermits embedText embedImage db knn query k similarity =
      handle_search freePermits embedText2 embedImage2 db2 knn2 query2 k2 similarity2 := by
  unfold handle_search
  rw [if_neg (Nat.pos_iff_ne_zero.mp hfree), if_neg (Nat.pos_iff_ne_zero.mp hfree), herr, hempty]
  have : freePermits - 1 + 1 = freePermits := by omega
  rw [this]
  exact ⟨rfl, rfl⟩

/-- Witness for C9 at concrete inputs: a failing text embedding yields
`some []`, indistinguishable from a search over an empty store. -/
theorem c9_errors_return_empty_witness :
    handle_search 1 (fun _ => .error .embedFailed) (fun _ => .ok [1]) dbOne knn0 (.text "q") 10 0 = (some [], 1) ∧
    handle_search 1 (fun _ => .error .embedFailed) (fun _ => .ok [1]) dbOne knn0 (.text "q") 10 0 =
      handle_search 1 (fun _ => .ok [1]) (fun _ => .ok [1]) VectorDB.empty knn0 (.text "q") 10 0 :=
  c9_errors_return_empty 1 (fun _ => .error .embedFailed) (fun _ => .ok [1]) (fun _ => .ok [1])
    (fun _ => .ok [1]) dbOne VectorDB.empty knn0 knn0 (.text "q") (.text "q") 10 10 0 0 .embedFailed
    (by decide) (by rfl) (by rfl)

set_option maxRecDepth 8000 in
/-- Claim C7: with the ingestion queue full, `handle_add_images` is claimed
to reject the enqueue immediately and report the accepted count.  The code
instead calls `Queue.put` in its default blocking mode, so the call blocks
waiting for queue space and never reaches the `except Full` path that would
return the count: on a full queue of 300 items, adding one decodable image
blocks instead of returning 0. -/
theorem c7_blocking_put_bug :
    handle_add_images (fun _ => some 0) [("img1", [0])] "default" fullQueue = .blockedOnPut ∧
    ∀ c q, AddOutcome.blockedOnPut ≠ .returns c q := by
  constructor
  · decide
  · intro c q
    exact AddOutcome.noConfusion

/-- One delete-loop iteration never touches the disk files. -/
theorem deleteStep_disk (db : DB) (k : Nat ⊕ String) : (db.deleteStep k).1.disk = db.disk := by
  unfold DB.deleteStep
  split
  · rfl
  · split
    · rfl
    · dsimp only
      split
      · rfl
      · rfl

/-- Unfolding equation for one step of the delete loop. -/
theorem deleteRun_cons (db : DB) (k : Nat ⊕ String) (ks : List (Nat ⊕ String)) :
    db.deleteRun (k :: ks) =
      match db.deleteStep k with
      | (db1, none) => db1.deleteRun ks
      | (db1, some e) => (db1, some e) := rfl

/-- The delete loop never touches the disk files. -/
theorem deleteRun_disk (ks : List (Nat ⊕ String)) : ∀ db : DB, (db.deleteRun ks).1.disk = db.disk := by
  induction ks with
  | nil => intro db; rfl
  | cons k ks ih =>
      intro db
      have hd := deleteStep_disk db k
      unfold DB.deleteRun
      cases h : db.deleteStep k with
      | mk db1 oe =>
          rw [h] at hd
          cases oe with
          | none => simpa [ih db1] using hd
          | some e => simpa using hd

/-- The delete loop over a successful prefix composes. -/
theorem deleteRun_append (ks1 ks2 : List (Nat ⊕ String)) : ∀ db db1 : DB,
    db.deleteRun ks1 = (db1, none) → db.deleteRun (ks1 ++ ks2) = db1.deleteRun ks2 := by
  induction ks1 with
  | nil =>
      intro db db1 h
      simp only [DB.deleteRun] at h
      cases h
      rfl
  | cons k ks ih =>
      intro db db1 h
      rw [deleteRun_cons] at h
      rw [List.cons_append, deleteRun_cons]
      cases hs : db.deleteStep k with
      | mk dbm oe =>
          rw [hs] at h
          cases oe with
          | none =>
              show dbm.deleteRun (ks ++ ks2) = db1.deleteRun ks2
              exact ih dbm db1 h
          | some e => simp at h

/-- Claim C10: `delete` processes its keys strictly in argument order and is
not atomic on error.  If the keys split as `good ++ k :: rest` where every
key of `good` resolves and `k` is unknown (its step raises without mutating
the state), the call stops at `k` with the store left exactly in the state
after tombstoning and unmapping the `good` prefix, the keys of `rest`
untouched, and — since `save()` is never reached — the on-disk files still
hold the pre-call state. -/
theorem c10_delete_partial (db db1 : DB) (good : List (Nat ⊕ String)) (k : Nat ⊕ String)
    (rest : List (Nat ⊕ String)) (e : DBErr) (rebuild : Bool)
    (hgood : db.deleteRun good = (db1, none))
    (hfail : db1.deleteStep k = (db1, some e)) :
    db.delete (good ++ k :: rest) rebuild = (db1, some e) ∧ db1.disk = db.disk := by
  have hrun : db.deleteRun (good ++ k :: rest) = (db1, some e) := by
    rw [deleteRun_append good (k :: rest) db db1 hgood]
    unfold DB.deleteRun
    rw [hfail]
  refine ⟨?_, ?_⟩
  · unfold DB.delete
    rw [hrun]
  · have h := deleteRun_disk good db
    rw [hgood] at h
    exact h

/-- Witness for C10 at concrete inputs: deleting `[a, zz, b]` from a saved
two-item store fails on the unknown label zz with a already gone, b still
present and the files unchanged. -/
theorem c10_delete_partial_witness :
    dbTwo.delete [Sum.inr "a", Sum.inr "zz", Sum.inr "b"] false = (c10mid, some .labelNotFound) ∧
    c10mid.disk = dbTwo.disk :=
  c10_delete_partial dbTwo c10mid [Sum.inr "a"] (Sum.inr "zz") [Sum.inr "b"] .labelNotFound false
    (by decide) (by decide)

/-- The rounding step is monotone. -/
theorem round1_mono {q r : ℚ} (h : q ≤ r) : round1 q ≤ round1 r := by
  unfold round1
  have hr : round (q * 10) ≤ round (r * 10) := by
    rw [round_eq, round_eq]
    exact Int.floor_mono (by linarith)
  rw [div_le_div_iff_of_pos_right (by norm_num : (0:ℚ) < 10)]
  exact_mod_cast hr

/-- The rounding step never exceeds 100 on inputs at most 100. -/
theorem round1_le_100 {q : ℚ} (h : q ≤ 100) : round1 q ≤ 100 := by
  have h1 : round1 q ≤ round1 100 := round1_mono h
  have h2 : round1 (100 : ℚ) = 100 := by
    unfold round1
    rw [show ((100 : ℚ) * 10) = ((1000 : ℤ) : ℚ) by norm_num, round_intCast]
    norm_num
  linarith

/-- What a kept result-loop entry looks like. -/
theorem resOpt_val {m : Mapping} {s : ℚ} {p : Nat × ℚ} {c : String × ℚ}
    (hc : resOpt m s p = some c) :
    Mapping.lookupId m p.1 = some c.1 ∧ c.2 = round1 ((1 - p.2) * 100) ∧ s ≤ c.2 := by
  unfold resOpt at hc
  cases hl : Mapping.lookupId m p.1 with
  | none => rw [hl] at hc; simp at hc
  | some label =>
      rw [hl] at hc
      dsimp only at hc
      by_cases hs : s ≤ round1 ((1 - p.2) * 100)
      · rw [if_pos hs] at hc
        injection hc with hc
        subst hc
        exact ⟨rfl, rfl, hs⟩
      · rw [if_neg hs] at hc
        simp at hc

/-- Every member of the converted result list comes from a neighbour pair,
carries the rounded similarity of its distance, and passed the threshold. -/
theorem toResults_mem {m : Mapping} {knnRes : List (Nat × ℚ)} {s : ℚ} {r : String × ℚ}
    (hr : r ∈ toResults m knnRes s) :
    ∃ p ∈ knnRes, Mapping.lookupId m p.1 = some r.1 ∧ r.2 = round1 ((1 - p.2) * 100) ∧ s ≤ r.2 := by
  unfold toResults at hr
  rcases List.mem_filterMap.mp hr with ⟨p, hp, hf⟩
  exact ⟨p, hp, resOpt_val hf⟩

/-- The conversion of an ascending-distance list is descending in
similarity. -/
theorem toResults_sorted {m : Mapping} {knnRes : List (Nat × ℚ)} {s : ℚ}
    (h : knnRes.Pairwise (fun a b => a.2 ≤ b.2)) :
    (toResults m knnRes s).Pairwise (fun a b => b.2 ≤ a.2) := by
  unfold toResults
  refine List.Pairwise.filterMap (resOpt m s) ?_ h
  intro a b hab c hc d hd
  have hcv := resOpt_val (Option.mem_def.mp hc)
  have hdv := resOpt_val (Option.mem_def.mp hd)
  rw [hcv.2.1, hdv.2.1]
  apply round1_mono
  nlinarith [hab]

/-- Claim C5: whenever `search` returns a result list — for any store, any
ANN oracle answering with distances in `[0, 2]` ordered nearest first, any
`k` and any threshold — every returned similarity lies in `[0, 100]` and is
computed as `round((1 - distance) * 100, 1)` from some returned neighbour,
and the list is sorted in descending order of similarity. -/
theorem c5_results_bounded_sorted (db : DB) (knn : Nat → Nat → List (Nat × ℚ)) (f : Vec)
    (k : Nat) (s : ℚ) (rs : List (String × ℚ))
    (hknn : ∀ ef n, ((knn ef n).Pairwise (fun a b => a.2 ≤ b.2)) ∧ ∀ p ∈ knn ef n, 0 ≤ p.2 ∧ p.2 ≤ 2)
    (hok : db.search knn f k s = .ok rs) :
    (∀ r ∈ rs, 0 ≤ r.2 ∧ r.2 ≤ 100 ∧
      ∃ p ∈ knn (search_ef k db.count) (min k db.count), r.2 = round1 ((1 - p.2) * 100)) ∧
    rs.Pairwise (fun a b => b.2 ≤ a.2) := by
  unfold DB.search at hok
  by_cases h0 : db.count = 0 ∨ f = []
  · rw [if_pos h0] at hok
    injection hok with hok
    subst hok
    exact ⟨fun r hr => absurd hr (List.not_mem_nil r), List.Pairwise.nil⟩
  · rw [if_neg h0] at hok
    by_cases hsim : s < 0 ∨ 100 < s
    · rw [if_pos hsim] at hok
      exact absurd hok (by simp)
    · rw [if_neg hsim] at hok
      push_neg at hsim
      dsimp only at hok
      injection hok with hok
      subst hok
      constructor
      · intro r hr
        obtain ⟨p, hp, _, hval, hge⟩ := toResults_mem hr
        have hd := (hknn (search_ef k db.count) (min k db.count)).2 p hp
        refine ⟨le_trans hsim.1 hge, ?_, ⟨p, hp, hval⟩⟩
        rw [hval]
        exact round1_le_100 (by nlinarith [hd.1])
      · exact toResults_sorted (hknn (search_ef k db.count) (min k db.count)).1

/-- Distance 0 converts to similarity 100. -/
theorem round1_d0 : round1 ((1 - (0:ℚ)) * 100) = 100 := by
  unfold round1
  rw [show ((1 - (0:ℚ)) * 100) * 10 = ((1000 : ℤ) : ℚ) by norm_num, round_intCast]
  norm_num

/-- Distance 1 converts to similarity 0. -/
theorem round1_d1 : round1 ((1 - (1:ℚ)) * 100) = 0 := by
  unfold round1
  rw [show ((1 - (1:ℚ)) * 100) * 10 = ((0 : ℤ) : ℚ) by norm_num, round_intCast]
  norm_num

/-- The oracle `knnW` satisfies the ANN contract. -/
theorem knnW_contract : ∀ ef n, ((knnW ef n).Pairwise (fun a b => a.2 ≤ b.2)) ∧
    ∀ p ∈ knnW ef n, 0 ≤ p.2 ∧ p.2 ≤ 2 := by
  intro ef n
  constructor
  · unfold knnW
    refine List.Pairwise.cons ?_ (List.pairwise_singleton _ _)
    intro b hb
    rw [List.mem_singleton.mp hb]
    decide
  · intro p hp
    unfold knnW at hp
    rcases List.mem_cons.mp hp with h | h
    · subst h; exact ⟨le_refl 0, by decide⟩
    · rw [List.mem_singleton.mp h]; exact ⟨by decide, by decide⟩

/-- The neighbour at distance 0 converts to `("a", 100)`. -/
theorem resOpt_w1 : resOpt dbTwo.mapping 0 (1, 0) = some ("a", 100) := by
  unfold resOpt
  dsimp only
  rw [show Mapping.lookupId dbTwo.mapping 1 = some "a" from by decide]
  dsimp only
  rw [round1_d0]
  norm_num

/-- The neighbour at distance 1 converts to `("b", 0)`. -/
theorem resOpt_w2 : resOpt dbTwo.mapping 0 (2, 1) = some ("b", 0) := by
  unfold resOpt
  dsimp only
  rw [show Mapping.lookupId dbTwo.mapping 2 = some "b" from by decide]
  dsimp only
  rw [round1_d1]
  norm_num

/-- The concrete search call of the C5 witness evaluates to `c5rs`. -/
theorem searchW_eval : dbTwo.search knnW [1] 10 0 = .ok c5rs := by
  unfold DB.search
  rw [if_neg (by decide), if_neg (by decide)]
  dsimp only
  unfold toResults knnW
  simp only [List.filterMap_cons, resOpt_w1, resOpt_w2, List.filterMap_nil]
  rfl

/-- Witness for C5 at concrete inputs: searching `dbTwo` with the `knnW`
oracle returns similarities 100 and 0, bounded and descending. -/
theorem c5_results_witness :
    (∀ r ∈ c5rs, 0 ≤ r.2 ∧ r.2 ≤ 100 ∧
      ∃ p ∈ knnW (search_ef 10 dbTwo.count) (min 10 dbTwo.count), r.2 = round1 ((1 - p.2) * 100)) ∧
    c5rs.Pairwise (fun a b => b.2 ≤ a.2) :=
  c5_results_bounded_sorted dbTwo knnW [1] 10 0 c5rs knnW_contract searchW_eval

/-- A tombstone-free slot list reports no deleted entry. -/
theorem any_deleted_false {l : List Slot} (h : ∀ s ∈ l, s.deleted = false) :
    l.any Slot.deleted = false := by
  rw [List.any_eq_false]
  intro s hs
  simp [h s hs]

/-- A slot list avoiding an id reports no entry with it. -/
theorem any_id_false {l : List Slot} {id : Nat} (h : ∀ s ∈ l, s.id ≠ id) :
    l.any (fun s => s.id = id) = false := by
  rw [List.any_eq_false]
  intro s hs
  simp [h s hs]

/-- On a tombstone-free index with room, inserting a fresh id appends a live
slot. -/
theorem addOne_append {idx : HnswIndex} {id : Nat} {v : Vec}
    (h1 : ∀ s ∈ idx.slots, s.deleted = false)
    (h2 : ∀ s ∈ idx.slots, s.id ≠ id)
    (h3 : idx.slots.length < idx.max_elements) :
    idx.addOne id v = .ok { idx with slots := idx.slots ++ [⟨id, false, v⟩] } := by
  unfold HnswIndex.addOne
  rw [if_neg (by simp [any_deleted_false h1]), if_neg (by simp [any_id_false h2]),
    if_neg (Nat.not_le.mpr h3)]

/-- On a tombstone-free full index, inserting a fresh id fails. -/
theorem addOne_full {idx : HnswIndex} {id : Nat} {v : Vec}
    (h1 : ∀ s ∈ idx.slots, s.deleted = false)
    (h2 : ∀ s ∈ idx.slots, s.id ≠ id)
    (h3 : idx.max_elements ≤ idx.slots.length) :
    idx.addOne id v = .error .indexFull := by
  unfold HnswIndex.addOne
  rw [if_neg (by simp [any_deleted_false h1]), if_neg (by simp [any_id_false h2]), if_pos h3]

/-- On a tombstone-free index, inserting an id that is present updates the
slot in place. -/
theorem addOne_update {idx : HnswIndex} {id : Nat} {v : Vec}
    (h1 : ∀ s ∈ idx.slots, s.deleted = false)
    (h2 : ∃ s ∈ idx.slots, s.id = id) :
    idx.addOne id v = .ok { idx with slots := updateById idx.slots id v } := by
  unfold HnswIndex.addOne
  rw [if_neg (by simp [any_deleted_false h1]),
    if_pos (by rw [List.any_eq_true]; rcases h2 with ⟨s, hs, he⟩; exact ⟨s, hs, by simp [he]⟩)]

/-- Updating a slot in place preserves the id list. -/
theorem updateById_ids (id : Nat) (v : Vec) : ∀ l : List Slot,
    (updateById l id v).map Slot.id = l.map Slot.id := by
  intro l
  induction l with
  | nil => rfl
  | cons s rest ih =>
      unfold updateById
      by_cases h : s.id = id
      · rw [if_pos h]
        simp [h]
      · rw [if_neg h]
        simp [ih]

/-- Updating a slot in place preserves tombstone freedom. -/
theorem updateById_deleted (id : Nat) (v : Vec) : ∀ l : List Slot,
    (∀ s ∈ l, s.deleted = false) → ∀ s ∈ updateById l id v, s.deleted = false := by
  intro l
  induction l with
  | nil => intro _ s hs; cases hs
  | cons t rest ih =>
      intro h s hs
      unfold updateById at hs
      by_cases ht : t.id = id
      · rw [if_pos ht] at hs
        rcases List.mem_cons.mp hs with he | he
        · rw [he]
          exact h t (List.mem_cons_self t rest)
        · exact h s (List.mem_cons_of_mem t he)
      · rw [if_neg ht] at hs
        rcases List.mem_cons.mp hs with he | he
        · rw [he]; exact h t (List.mem_cons_self t rest)
        · exact ih (fun u hu => h u (List.mem_cons_of_mem t hu)) s he

/-- A batch insert whose first element succeeds continues from the new
index. -/
theorem addItems_cons_ok {idx idx2 : HnswIndex} {p : Vec × Nat} {ps : List (Vec × Nat)}
    (h : idx.addOne p.2 p.1 = .ok idx2) :
    idx.addItems (p :: ps) = idx2.addItems ps := by
  unfold HnswIndex.addItems
  rw [List.foldlM_cons, h]
  rfl

/-- A batch insert whose first element raises stops with that error. -/
theorem addItems_cons_err {idx : HnswIndex} {p : Vec × Nat} {ps : List (Vec × Nat)} {e : DBErr}
    (h : idx.addOne p.2 p.1 = .error e) :
    idx.addItems (p :: ps) = .error e := by
  unfold HnswIndex.addItems
  rw [List.foldlM_cons, h]
  rfl

/-- Batch insert of fresh distinct ids into a tombstone-free index with
room: every slot is appended live, in order. -/
theorem addItems_append (pairs : List (Vec × Nat)) : ∀ idx : HnswIndex,
    (∀ s ∈ idx.slots, s.deleted = false) →
    (∀ p ∈ pairs, ∀ s ∈ idx.slots, s.id ≠ p.2) →
    ((pairs.map Prod.snd).Nodup) →
    (idx.slots.length + pairs.length ≤ idx.max_elements) →
    idx.addItems pairs =
      .ok { idx with slots := idx.slots ++ pairs.map (fun p => ⟨p.2, false, p.1⟩) } := by
  induction pairs with
  | nil =>
      intro idx _ _ _ _
      show (pure idx : Except DBErr HnswIndex) = _
      rw [List.map_nil, List.append_nil]
      rfl
  | cons p ps ih =>
      intro idx h1 h2 h3 h4
      simp only [List.length_cons] at h4
      simp only [List.map_cons, List.nodup_cons] at h3
      have hone := @addOne_append idx p.2 p.1 h1
        (fun s hs => h2 p (List.mem_cons_self p ps) s hs) (by omega)
      rw [addItems_cons_ok hone]
      rw [ih { idx with slots := idx.slots ++ [⟨p.2, false, p.1⟩] }
        (by intro s hs
            rcases List.mem_append.mp hs with hm | hm
            · exact h1 s hm
            · rw [List.mem_singleton.mp hm])
        (by intro q hq s hs
            rcases List.mem_append.mp hs with hm | hm
            · exact h2 q (List.mem_cons_of_mem p hq) s hm
            · rw [List.mem_singleton.mp hm]
              intro he
              have he2 : p.2 = q.2 := he
              exact h3.1 (he2 ▸ List.mem_map_of_mem Prod.snd hq)
            )
        h3.2
        (by simp only [List.length_append, List.length_cons, List.length_nil]
            omega)]
      simp [List.append_assoc]

/-- Batch insert of fresh distinct ids into a tombstone-free index that
cannot hold them all fails with the index-full error. -/
theorem addItems_full (pairs : List (Vec × Nat)) : ∀ idx : HnswIndex,
    (∀ s ∈ idx.slots, s.deleted = false) →
    (∀ p ∈ pairs, ∀ s ∈ idx.slots, s.id ≠ p.2) →
    ((pairs.map Prod.snd).Nodup) →
    (idx.slots.length ≤ idx.max_elements) →
    (idx.max_elements < idx.slots.length + pairs.length) →
    idx.addItems pairs = .error .indexFull := by
  induction pairs with
  | nil =>
      intro idx _ _ _ hle hlt
      exfalso
      simp only [List.length_nil] at hlt
      omega
  | cons p ps ih =>
      intro idx h1 h2 h3 hle hlt
      simp only [List.length_cons] at hlt
      simp only [List.map_cons, List.nodup_cons] at h3
      by_cases hfull : idx.max_elements ≤ idx.slots.length
      · exact addItems_cons_err (@addOne_full idx p.2 p.1 h1
          (fun s hs => h2 p (List.mem_cons_self p ps) s hs) hfull)
      · push_neg at hfull
        have hone := @addOne_append idx p.2 p.1 h1
          (fun s hs => h2 p (List.mem_cons_self p ps) s hs) hfull
        rw [addItems_cons_ok hone]
        refine ih { idx with slots := idx.slots ++ [⟨p.2, false, p.1⟩] }
          (by intro s hs
              rcases List.mem_append.mp hs with hm | hm
              · exact h1 s hm
              · rw [List.mem_singleton.mp hm])
          (by intro q hq s hs
              rcases List.mem_append.mp hs with hm | hm
              · exact h2 q (List.mem_cons_of_mem p hq) s hm
              · rw [List.mem_singleton.mp hm]
                intro he
                have he2 : p.2 = q.2 := he
                exact h3.1 (he2 ▸ List.mem_map_of_mem Prod.snd hq))
          h3.2
          ?_ ?_ <;>
          simp only [List.length_append, List.length_cons, List.length_nil] <;> omega

/-- Assigning fresh distinct keys with fresh distinct labels appends them to
the mapping, in order. -/
theorem setMany_append (pairs : List (Nat × String)) : ∀ m : Mapping,
    (∀ p ∈ pairs, ∀ q ∈ m, q.1 ≠ p.1) →
    (∀ p ∈ pairs, ∀ q ∈ m, q.2 ≠ p.2) →
    ((pairs.map Prod.fst).Nodup) →
    ((pairs.map Prod.snd).Nodup) →
    setMany m pairs = .ok (m ++ pairs) := by
  induction pairs with
  | nil =>
      intro m _ _ _ _
      show (pure m : Except DBErr Mapping) = _
      rw [List.append_nil]
      rfl
  | cons p ps ih =>
      intro m hk hv hkn hvn
      simp only [List.map_cons, List.nodup_cons] at hkn hvn
      have hno : ¬(m.any (fun q => q.2 = p.2 ∧ q.1 ≠ p.1) = true) := by
        rw [Bool.not_eq_true, List.any_eq_false]
        intro q hq
        simp only [decide_eq_true_eq]
        intro hand
        exact (hv p (List.mem_cons_self p ps) q hq) hand.1
      have hkeep : m.filter (fun q => q.1 ≠ p.1) = m := by
        rw [List.filter_eq_self]
        intro q hq
        simpa using hk p (List.mem_cons_self p ps) q hq
      have hset : Mapping.setItem m p.1 p.2 = .ok (m ++ [p]) := by
        unfold Mapping.setItem
        rw [if_neg hno, hkeep]
      show (Mapping.setItem m p.1 p.2 >>= fun acc =>
        List.foldlM (fun acc q => Mapping.setItem acc q.1 q.2) acc ps) = _
      rw [hset]
      show setMany (m ++ [p]) ps = _
      rw [ih (m ++ [p])
        (by intro q hq r hr
            rcases List.mem_append.mp hr with hm | hm
            · exact hk q (List.mem_cons_of_mem p hq) r hm
            · rw [List.mem_singleton.mp hm]
              intro he
              exact hkn.1 (he ▸ List.mem_map_of_mem Prod.fst hq))
        (by intro q hq r hr
            rcases List.mem_append.mp hr with hm | hm
            · exact hv q (List.mem_cons_of_mem p hq) r hm
            · rw [List.mem_singleton.mp hm]
              intro he
              exact hvn.1 (he ▸ List.mem_map_of_mem Prod.snd hq))
        hkn.2 hvn.2]
      rw [List.append_assoc]
      rfl

/-- Sorting the empty label list. -/
theorem sortStrings_nil : sortStrings [] = [] := rfl

/-- `multi_remove` with no values to remove keeps the list. -/
theorem multiRemoveAux_nilv (l : List String) : ∀ i, multiRemoveAux l [] i = (l, []) := by
  induction l with
  | nil => intro i; rfl
  | cons v rest ih =>
      intro i
      unfold multiRemoveAux
      rw [ih (i + 1)]
      rfl

/-- `multi_remove` with no values to remove keeps the list. -/
theorem multi_remove_nilv (l : List String) : multi_remove l [] = (l, []) :=
  multiRemoveAux_nilv l 0

/-- `multi_pop` with no indices keeps the list. -/
theorem multiPopAux_nilv (l : List Vec) : ∀ i, multiPopAux l [] i = (l, []) := by
  induction l with
  | nil => intro i; rfl
  | cons v rest ih =>
      intro i
      unfold multiPopAux
      rw [ih (i + 1)]
      rfl

/-- `multi_pop` with no indices keeps the list. -/
theorem multi_pop_nilv (l : List Vec) : multi_pop l [] = (l, []) :=
  multiPopAux_nilv l 0

/-- Bind on a successful `Except` continues with the value. -/
theorem okBindE {α β : Type} (a : α) (f : α → Except DBErr β) :
    ((Except.ok a : Except DBErr α) >>= f) = f a := rfl

/-- How `add_items` evaluates on a batch of fresh distinct labels over a
clean store: no overwrites happen, capacity grows by exactly one increment
when the post-insert count would exceed it, keys `next_id..` are assigned in
order, and the outcome is that of the batch index insert. -/
theorem add_items_fresh_reduce (db : DB) (labels : List String) (features : List Vec)
    (hc : Clean db) (hlen : labels.length = features.length) (hne : labels ≠ [])
    (hfresh : ∀ l ∈ labels, Mapping.hasLabel db.mapping l = false)
    (hnodup : labels.Nodup) :
    db.add_items labels features true =
      (let db2 := if db.capacity < db.count + features.length
           then { db with index := db.index.resize_index db.next_capacity } else db
       Except.map (fun idx => (DB.save { db2 with
             mapping := db.mapping ++ (List.range' db.next_id features.length).zip labels,
             index := idx }, features.length))
         (db2.index.addItems (features.zip (List.range' db.next_id features.length)))) := by
  obtain ⟨hdel, hids, hkeys, hcnt, hcap, hlnd⟩ := hc
  have hfil : labels.filter (fun l => Mapping.hasLabel db.mapping l) = [] :=
    List.filter_eq_nil_iff.mpr (fun a ha => by simp [hfresh a ha])
  have hpos : 0 < features.length := by
    rw [← hlen]
    exact List.length_pos.mpr hne
  have hzipk : ∀ pr ∈ (List.range' (db.index.slots.length + 1) features.length).zip labels,
      ∀ q ∈ db.mapping, q.1 ≠ pr.1 := by
    intro pr hpr q hq
    obtain ⟨a, b⟩ := pr
    have ha := (List.of_mem_zip hpr).1
    have hqk : q.1 ∈ List.range' 1 (List.length db.mapping) := by
      rw [← hkeys]
      exact List.mem_map_of_mem Prod.fst hq
    rw [List.mem_range'] at ha hqk
    obtain ⟨i, hi, hia⟩ := ha
    obtain ⟨j, hj, hjq⟩ := hqk
    simp only
    omega
  have hzipv : ∀ pr ∈ (List.range' (db.index.slots.length + 1) features.length).zip labels,
      ∀ q ∈ db.mapping, q.2 ≠ pr.2 := by
    intro pr hpr q hq
    obtain ⟨a, b⟩ := pr
    have hb := (List.of_mem_zip hpr).2
    have := hfresh b hb
    unfold Mapping.hasLabel at this
    have hnone := List.any_eq_false.mp this q hq
    simpa using hnone
  have hlr : (List.range' (db.index.slots.length + 1) features.length).length = features.length :=
    List.length_range' _ _ _
  have hmapfst : ((List.range' (db.index.slots.length + 1) features.length).zip labels).map Prod.fst
      = List.range' (db.index.slots.length + 1) features.length :=
    List.map_fst_zip _ _ (by rw [hlr, hlen])
  have hmapsnd : ((List.range' (db.index.slots.length + 1) features.length).zip labels).map Prod.snd
      = labels :=
    List.map_snd_zip _ _ (by rw [hlr, hlen])
  have hsm : setMany db.mapping ((List.range' (db.index.slots.length + 1) features.length).zip labels)
      = .ok (db.mapping ++ (List.range' (db.index.slots.length + 1) features.length).zip labels) :=
    setMany_append _ db.mapping hzipk hzipv
      (by rw [hmapfst]; exact List.nodup_range' _ _)
      (by rw [hmapsnd]; exact hnodup)
  unfold DB.add_items
  rw [if_neg (by simp [hlen])]
  simp only [hfil, List.dedup_nil, sortStrings_nil, multi_remove_nilv, multi_pop_nilv]
  rw [if_neg (by simp)]
  simp only [pure_bind]
  rw [if_pos (⟨hpos, hlen⟩ : 0 < features.length ∧ labels.length = features.length)]
  by_cases hgrow : db.capacity < db.count + features.length
  · simp only [if_pos hgrow]
    dsimp only [DB.next_id, HnswIndex.element_count, HnswIndex.resize_index]
    rw [hsm]
    simp only [okBindE, Nat.zero_add, if_pos hpos]
    rw [bind_pure_comp]
    rfl
  · simp only [if_neg hgrow]
    dsimp only [DB.next_id, HnswIndex.element_count]
    rw [hsm]
    simp only [okBindE, Nat.zero_add, if_pos hpos]
    rw [bind_pure_comp]
    rfl

/-- Claim C2 (amended): on any clean store, an `add_items` batch of fresh
distinct labels of size at most the growth increment `cfg.CAPACITY` never
fails; the live count grows by the batch size and never exceeds capacity;
when growth triggers, capacity strictly increases, by exactly one increment.
(The original claim fails for a single batch larger than one increment: see
the counterexample.) -/
theorem c2_capacity_growth (db : DB) (labels : List String) (features : List Vec)
    (hc : Clean db) (hlen : labels.length = features.length) (hne : labels ≠ [])
    (hfresh : ∀ l ∈ labels, Mapping.hasLabel db.mapping l = false)
    (hnodup : labels.Nodup) (hsize : labels.length ≤ CAPACITY) :
    ∃ db1, db.add_items labels features true = .ok (db1, labels.length) ∧
      db1.count = db.count + labels.length ∧
      db1.count ≤ db1.capacity ∧
      (db.capacity < db.count + labels.length →
        db.capacity < db1.capacity ∧ db1.capacity = db.capacity + CAPACITY) ∧
      (db.count + labels.length ≤ db.capacity → db1.capacity = db.capacity) ∧
      Clean db1 := by
  obtain ⟨hdel, hids, hkeys, hcnt, hcap, hlnd⟩ := hc
  have hred := add_items_fresh_reduce db labels features
    ⟨hdel, hids, hkeys, hcnt, hcap, hlnd⟩ hlen hne hfresh hnodup
  have hCAP : CAPACITY = 10000 := rfl
  have hids2 : List.map Slot.id db.index.slots = List.range' 1 db.index.slots.length := hids
  have hcnt2 : List.length db.mapping = db.index.slots.length := hcnt
  have hpos : 0 < features.length := by
    rw [← hlen]; exact List.length_pos.mpr hne
  have hsize2 : features.length ≤ CAPACITY := by rw [← hlen]; exact hsize
  have hlr : (List.range' (db.index.slots.length + 1) features.length).length = features.length :=
    List.length_range' _ _ _
  have hmapsnd2 : (features.zip (List.range' (db.index.slots.length + 1) features.length)).map Prod.snd
      = List.range' (db.index.slots.length + 1) features.length :=
    List.map_snd_zip _ _ (by rw [hlr])
  have hzlen : (features.zip (List.range' (db.index.slots.length + 1) features.length)).length
      = features.length := by
    rw [List.length_zip, hlr, Nat.min_self]
  have hmlen : ((List.range' (db.index.slots.length + 1) features.length).zip labels).length
      = features.length := by
    rw [List.length_zip, hlr, hlen, Nat.min_self]
  have hmfst : ((List.range' (db.index.slots.length + 1) features.length).zip labels).map Prod.fst
      = List.range' (db.index.slots.length + 1) features.length :=
    List.map_fst_zip _ _ (by rw [hlr, hlen])
  have hmsnd : ((List.range' (db.index.slots.length + 1) features.length).zip labels).map Prod.snd
      = labels :=
    List.map_snd_zip _ _ (by rw [hlr, hlen])
  have hfreshids : ∀ p ∈ features.zip (List.range' (db.index.slots.length + 1) features.length),
      ∀ s ∈ db.index.slots, s.id ≠ p.2 := by
    intro p hp s hs
    have hp2 := (List.of_mem_zip hp).2
    have hsid : s.id ∈ List.range' 1 db.index.slots.length := by
      rw [← hids]
      exact List.mem_map_of_mem Slot.id hs
    rw [List.mem_range'] at hp2 hsid
    obtain ⟨i, hi, hie⟩ := hp2
    obtain ⟨j, hj, hje⟩ := hsid
    omega
  have hnodupids : ((features.zip (List.range' (db.index.slots.length + 1) features.length)).map
      Prod.snd).Nodup := by
    rw [hmapsnd2]
    exact List.nodup_range' _ _
  have hvaldisj : (List.map Prod.snd db.mapping).Disjoint labels := by
    intro a ha hb
    rcases List.mem_map.mp ha with ⟨q, hq, he⟩
    have := hfresh a hb
    unfold Mapping.hasLabel at this
    have hnone := List.any_eq_false.mp this q hq
    simp at hnone
    exact hnone he
  by_cases hgrow : db.capacity < db.count + features.length
  · have hgrow2 : db.index.max_elements < db.mapping.length + features.length := hgrow
    rw [hred]
    simp only [if_pos hgrow]
    dsimp only [DB.next_id, HnswIndex.element_count, HnswIndex.resize_index, DB.next_capacity]
    rw [addItems_append (features.zip (List.range' (db.index.slots.length + 1) features.length))
      ⟨db.index.max_elements + CAPACITY, db.index.ef_construction, db.index.M, db.index.slots⟩
      hdel hfreshids hnodupids (by
        show db.index.slots.length +
          (features.zip (List.range' (db.index.slots.length + 1) features.length)).length ≤
          db.index.max_elements + CAPACITY
        rw [hzlen]
        omega)]
    simp only [Except.map]
    refine ⟨_, by rw [hlen], ?_, ?_, ?_, ?_, ?_⟩
    · show List.length (db.mapping ++ _) = db.mapping.length + labels.length
      rw [List.length_append, hmlen, hlen]
    · show List.length (db.mapping ++ _) ≤ db.index.max_elements + CAPACITY
      rw [List.length_append, hmlen]
      omega
    · intro _
      refine ⟨?_, rfl⟩
      show db.index.max_elements < db.index.max_elements + CAPACITY
      omega
    · intro hle
      have hle2 : db.mapping.length + labels.length ≤ db.index.max_elements := hle
      rw [hlen] at hle2
      omega
    · dsimp only [Clean, DB.save, HnswIndex.element_count, HnswIndex.ids_list]
      refine ⟨?_, ?_, ?_, ?_, ?_, ?_⟩
      · intro s hs
        rcases List.mem_append.mp hs with hm | hm
        · exact hdel s hm
        · rcases List.mem_map.mp hm with ⟨p, _, he⟩
          rw [← he]
      · show (db.index.slots ++ _).map Slot.id = _
        rw [List.map_append, hids2, List.map_map]
        rw [show (Slot.id ∘ fun p => (⟨p.2, false, p.1⟩ : Slot)) = (Prod.snd :
            Vec × Nat → Nat) from rfl]
        rw [hmapsnd2, List.length_append, List.length_map, hzlen]
        rw [show db.index.slots.length + 1 = 1 + 1 * db.index.slots.length by omega]
        rw [List.range'_append]
        rw [Nat.add_comm features.length db.index.slots.length]
      · show List.map Prod.fst (db.mapping ++ _) = List.range' 1 (List.length (db.mapping ++ _))
        rw [List.map_append, hkeys, hmfst, List.length_append, hmlen, hcnt]
        rw [show db.index.slots.length + 1 = 1 + 1 * db.index.slots.length by omega]
        rw [List.range'_append]
        rw [Nat.add_comm features.length db.index.slots.length]
      · show List.length (db.mapping ++ _) = (db.index.slots ++ _).length
        rw [List.length_append, List.length_append, hmlen, List.length_map, hzlen, hcnt]
      · show List.length (db.mapping ++ _) ≤ db.index.max_elements + CAPACITY
        rw [List.length_append, hmlen]
        omega
      · show (List.map Prod.snd (db.mapping ++ _)).Nodup
        rw [List.map_append, hmsnd]
        exact List.Nodup.append hlnd hnodup hvaldisj
  · have hgrow2 : ¬(db.index.max_elements < db.mapping.length + features.length) := hgrow
    rw [hred]
    simp only [if_neg hgrow]
    dsimp only [DB.next_id, HnswIndex.element_count]
    rw [addItems_append (features.zip (List.range' (db.index.slots.length + 1) features.length))
      db.index hdel hfreshids hnodupids
      (by show db.index.slots.length +
            (features.zip (List.range' (db.index.slots.length + 1) features.length)).length ≤
            db.index.max_elements
          rw [hzlen]
          omega)]
    simp only [Except.map]
    refine ⟨_, by rw [hlen], ?_, ?_, ?_, ?_, ?_⟩
    · show List.length (db.mapping ++ _) = db.mapping.length + labels.length
      rw [List.length_append, hmlen, hlen]
    · show List.length (db.mapping ++ _) ≤ db.index.max_elements
      rw [List.length_append, hmlen]
      omega
    · intro hlt
      have hlt2 : db.index.max_elements < db.mapping.length + labels.length := hlt
      rw [hlen] at hlt2
      omega
    · intro _
      rfl
    · dsimp only [Clean, DB.save, HnswIndex.element_count, HnswIndex.ids_list]
      refine ⟨?_, ?_, ?_, ?_, ?_, ?_⟩
      · intro s hs
        rcases List.mem_append.mp hs with hm | hm
        · exact hdel s hm
        · rcases List.mem_map.mp hm with ⟨p, _, he⟩
          rw [← he]
      · show (db.index.slots ++ _).map Slot.id = _
        rw [List.map_append, hids2, List.map_map]
        rw [show (Slot.id ∘ fun p => (⟨p.2, false, p.1⟩ : Slot)) = (Prod.snd :
            Vec × Nat → Nat) from rfl]
        rw [hmapsnd2, List.length_append, List.length_map, hzlen]
        rw [show db.index.slots.length + 1 = 1 + 1 * db.index.slots.length by omega]
        rw [List.range'_append]
        rw [Nat.add_comm features.length db.index.slots.length]
      · show List.map Prod.fst (db.mapping ++ _) = List.range' 1 (List.length (db.mapping ++ _))
        rw [List.map_append, hkeys, hmfst, List.length_append, hmlen, hcnt]
        rw [show db.index.slots.length + 1 = 1 + 1 * db.index.slots.length by omega]
        rw [List.range'_append]
        rw [Nat.add_comm features.length db.index.slots.length]
      · show List.length (db.mapping ++ _) = (db.index.slots ++ _).length
        rw [List.length_append, List.length_append, hmlen, List.length_map, hzlen, hcnt]
      · show List.length (db.mapping ++ _) ≤ db.index.max_elements
        rw [List.length_append, hmlen]
        omega
      · show (List.map Prod.snd (db.mapping ++ _)).Nodup
        rw [List.map_append, hmsnd]
        exact List.Nodup.append hlnd hnodup hvaldisj

/-- A fresh store is clean. -/
theorem clean_empty : Clean VectorDB.empty :=
  ⟨fun s hs => absurd hs (List.not_mem_nil s), rfl, rfl, rfl, Nat.zero_le _, List.nodup_nil⟩

/-- Claim C2, the original statement refuted: a single `add_items` batch of
20001 fresh items on a fresh store (capacity 10000) raises the index-full
error, because capacity is grown by only one increment (to 20000) before
the batch insert. -/
theorem c2_counterexample :
    VectorDB.empty.add_items c2Labels c2Features true = .error .indexFull := by
  have hflen : c2Features.length = 20001 := by
    unfold c2Features
    rw [List.length_replicate]
  have hllen : c2Labels.length = 20001 := by
    unfold c2Labels
    rw [List.length_map, List.length_range]
  have hlen : c2Labels.length = c2Features.length := by rw [hflen, hllen]
  have hne : c2Labels ≠ [] := List.ne_nil_of_length_pos (by rw [hllen]; norm_num)
  have hinj : Function.Injective (fun i : Nat => String.mk (List.replicate i 'a')) := by
    intro i j h
    have h1 := congrArg String.data h
    have h2 := congrArg List.length h1
    simpa using h2
  have hnodup : c2Labels.Nodup := List.Nodup.map hinj (List.nodup_range 20001)
  have hfresh : ∀ l ∈ c2Labels, Mapping.hasLabel VectorDB.empty.mapping l = false :=
    fun l _ => rfl
  rw [add_items_fresh_reduce VectorDB.empty c2Labels c2Features clean_empty hlen hne hfresh hnodup]
  simp only [hflen]
  rw [if_pos (by decide)]
  dsimp only
  have h1 : ∀ s ∈ (VectorDB.empty.index.resize_index VectorDB.empty.next_capacity).slots,
      s.deleted = false := fun s hs => absurd hs (List.not_mem_nil s)
  have hz : (c2Features.zip (List.range' VectorDB.empty.next_id 20001)).length = 20001 := by
    rw [List.length_zip, hflen, List.length_range', Nat.min_self]
  have h2 : ∀ p ∈ (c2Features.zip (List.range' VectorDB.empty.next_id 20001)),
      ∀ s ∈ (VectorDB.empty.index.resize_index VectorDB.empty.next_capacity).slots, s.id ≠ p.2 :=
    fun p _ s hs => absurd hs (List.not_mem_nil s)
  have h3 : (((c2Features.zip (List.range' VectorDB.empty.next_id 20001))).map Prod.snd).Nodup := by
    rw [List.map_snd_zip _ _ (by rw [hflen, List.length_range'])]
    exact List.nodup_range' _ _
  have h4 : (VectorDB.empty.index.resize_index VectorDB.empty.next_capacity).slots.length ≤
      (VectorDB.empty.index.resize_index VectorDB.empty.next_capacity).max_elements :=
    Nat.zero_le _
  have h5 : (VectorDB.empty.index.resize_index VectorDB.empty.next_capacity).max_elements <
      (VectorDB.empty.index.resize_index VectorDB.empty.next_capacity).slots.length +
      (c2Features.zip (List.range' VectorDB.empty.next_id 20001)).length := by
    rw [hz]
    decide
  have herr := addItems_full (c2Features.zip (List.range' VectorDB.empty.next_id 20001))
    (VectorDB.empty.index.resize_index VectorDB.empty.next_capacity) h1 h2 h3 h4 h5
  rw [herr]
  rfl

/-- `add_item` on a clean store never fails and preserves cleanliness (both
the overwrite path and the fresh-label path, growing capacity first when the
store is full). -/
theorem add_item_clean (db : DB) (label : String) (f : Vec) (hc : Clean db) :
    ∃ db1 b, db.add_item label f true = .ok (db1, b) ∧ Clean db1 := by
  obtain ⟨hdel, hids, hkeys, hcnt, hcap, hlnd⟩ := hc
  have hids2 : List.map Slot.id db.index.slots = List.range' 1 db.index.slots.length := hids
  have hCAP : CAPACITY = 10000 := rfl
  unfold DB.add_item
  cases hlook : Mapping.lookupLabel db.mapping label with
  | some fid =>
      dsimp only
      have hmem : ∃ q ∈ db.mapping, q.1 = fid ∧ q.2 = label := by
        unfold Mapping.lookupLabel at hlook
        cases hfind : db.mapping.find? (fun p => p.2 = label) with
        | none => rw [hfind] at hlook; simp at hlook
        | some q =>
            rw [hfind] at hlook
            simp only [Option.map_some'] at hlook
            injection hlook with hlook
            refine ⟨q, List.mem_of_find?_eq_some hfind, hlook, ?_⟩
            have := List.find?_some hfind
            simpa using this
      obtain ⟨q, hq, hqf, hql⟩ := hmem
      have hsid : ∃ s ∈ db.index.slots, s.id = fid := by
        have h1 : fid ∈ List.map Prod.fst db.mapping := by
          rw [← hqf]
          exact List.mem_map_of_mem Prod.fst hq
        rw [hkeys, hcnt, ← hids2] at h1
        rcases List.mem_map.mp h1 with ⟨s, hs, he⟩
        exact ⟨s, hs, he⟩
      rw [if_neg (show ¬(true = false) from by decide)]
      rw [@addOne_update db.index fid f hdel hsid]
      have hlenu : (updateById db.index.slots fid f).length = db.index.slots.length := by
        have := congrArg List.length (updateById_ids fid f db.index.slots)
        simpa using this
      refine ⟨_, true, rfl, ?_, ?_, ?_, ?_, ?_, ?_⟩
      all_goals dsimp only [DB.save]
      · exact updateById_deleted fid f db.index.slots hdel
      · show (updateById db.index.slots fid f).map Slot.id
          = List.range' 1 (updateById db.index.slots fid f).length
        rw [updateById_ids fid f db.index.slots, hlenu, hids2]
      · exact hkeys
      · show List.length db.mapping = (updateById db.index.slots fid f).length
        rw [hlenu, hcnt]
      · exact hcap
      · exact hlnd
  | none =>
      dsimp only
      have hnol : ∀ q ∈ db.mapping, ¬(q.2 = label) := by
        unfold Mapping.lookupLabel at hlook
        intro q hq
        have hfnone : db.mapping.find? (fun p => p.2 = label) = none := by
          cases hfind : db.mapping.find? (fun p => p.2 = label) with
          | none => rfl
          | some r => rw [hfind] at hlook; simp at hlook
        have := List.find?_eq_none.mp hfnone q hq
        simpa using this
      have hset2 : Mapping.setItem db.mapping (db.index.slots.length + 1) label
          = .ok (db.mapping ++ [(db.index.slots.length + 1, label)]) := by
        unfold Mapping.setItem
        rw [if_neg (by
          rw [Bool.not_eq_true, List.any_eq_false]
          intro q hq
          simp only [decide_eq_true_eq]
          intro hand
          exact (hnol q hq) hand.1)]
        rw [List.filter_eq_self.mpr (by
          intro q hq
          have hqk : q.1 ∈ List.range' 1 (List.length db.mapping) := by
            rw [← hkeys]
            exact List.mem_map_of_mem Prod.fst hq
          rw [List.mem_range'] at hqk
          obtain ⟨i, hi, hie⟩ := hqk
          simp only [ne_eq, decide_not, Bool.not_eq_eq_eq_not, Bool.not_true,
            decide_eq_false_iff_not]
          have hcnt3 : List.length db.mapping = db.index.slots.length := hcnt
          omega)]
      have hval : ((db.mapping ++ [(db.index.slots.length + 1, label)]).map Prod.snd).Nodup := by
        rw [List.map_append]
        refine List.Nodup.append hlnd (List.nodup_singleton label) ?_
        intro a ha hb
        rcases List.mem_map.mp ha with ⟨q, hq, he⟩
        rw [List.mem_singleton.mp hb] at he
        exact (hnol q hq) he
      have hfreshid : ∀ s ∈ db.index.slots, s.id ≠ db.index.slots.length + 1 := by
        intro s hs
        have hsid : s.id ∈ List.range' 1 db.index.slots.length := by
          rw [← hids2]
          exact List.mem_map_of_mem Slot.id hs
        rw [List.mem_range'] at hsid
        obtain ⟨i, hi, hie⟩ := hsid
        omega
      by_cases hfull : db.capacity ≤ db.count
      · rw [if_pos hfull]
        dsimp only [DB.next_id, HnswIndex.element_count, HnswIndex.resize_index, DB.next_capacity]
        rw [hset2]
        rw [@addOne_append
          ⟨db.index.max_elements + CAPACITY, db.index.ef_construction, db.index.M, db.index.slots⟩
          (db.index.slots.length + 1) f hdel hfreshid
          (show db.index.slots.length < db.index.max_elements + CAPACITY by omega)]
        refine ⟨_, true, rfl, ?_, ?_, ?_, ?_, ?_, ?_⟩
        all_goals dsimp only [DB.save]
        · intro s hs
          rcases List.mem_append.mp hs with hm | hm
          · exact hdel s hm
          · rw [List.mem_singleton.mp hm]
        · show (db.index.slots ++ _).map Slot.id = _
          rw [List.map_append, hids2, List.length_append, List.length_cons, List.length_nil]
          show _ = List.range' 1 (db.index.slots.length + 1)
          rw [List.range'_concat]
          rw [show (1 + 1 * db.index.slots.length) = db.index.slots.length + 1 from by omega]
          rfl
        · show List.map Prod.fst (db.mapping ++ _) = _
          rw [List.map_append, hkeys, List.length_append, List.length_cons, List.length_nil, hcnt]
          show _ = List.range' 1 (db.index.slots.length + 1)
          rw [List.range'_concat]
          rw [show (1 + 1 * db.index.slots.length) = db.index.slots.length + 1 from by omega]
          rfl
        · show List.length (db.mapping ++ _) = (db.index.slots ++ _).length
          rw [List.length_append, List.length_append, hcnt]
          rfl
        · show List.length (db.mapping ++ _) ≤ db.index.max_elements + CAPACITY
          rw [List.length_append, List.length_cons, List.length_nil]
          have hfull2 : db.index.max_elements ≤ db.mapping.length := hfull
          omega
        · exact hval
      · rw [if_neg hfull]
        dsimp only [DB.next_id, HnswIndex.element_count]
        rw [hset2]
        have hroom : db.index.slots.length < db.index.max_elements := by
          have hfull2 : ¬(db.index.max_elements ≤ db.mapping.length) := hfull
          omega
        rw [@addOne_append db.index (db.index.slots.length + 1) f hdel hfreshid hroom]
        refine ⟨_, true, rfl, ?_, ?_, ?_, ?_, ?_, ?_⟩
        all_goals dsimp only [DB.save]
        · intro s hs
          rcases List.mem_append.mp hs with hm | hm
          · exact hdel s hm
          · rw [List.mem_singleton.mp hm]
        · show (db.index.slots ++ _).map Slot.id = _
          rw [List.map_append, hids2, List.length_append, List.length_cons, List.length_nil]
          show _ = List.range' 1 (db.index.slots.length + 1)
          rw [List.range'_concat]
          rw [show (1 + 1 * db.index.slots.length) = db.index.slots.length + 1 from by omega]
          rfl
        · show List.map Prod.fst (db.mapping ++ _) = _
          rw [List.map_append, hkeys, List.length_append, List.length_cons, List.length_nil, hcnt]
          show _ = List.range' 1 (db.index.slots.length + 1)
          rw [List.range'_concat]
          rw [show (1 + 1 * db.index.slots.length) = db.index.slots.length + 1 from by omega]
          rfl
        · show List.length (db.mapping ++ _) = (db.index.slots ++ _).length
          rw [List.length_append, List.length_append, hcnt]
          rfl
        · show List.length (db.mapping ++ _) ≤ db.index.max_elements
          rw [List.length_append, List.length_cons, List.length_nil]
          omega
        · exact hval

/-- Any sequence of adds starting from a clean store leaves a clean store. -/
theorem applyAdds_clean (pairs : List (String × Vec)) : ∀ db db1 : DB,
    Clean db → applyAdds db pairs = .ok db1 → Clean db1 := by
  induction pairs with
  | nil =>
      intro db db1 hc h
      unfold applyAdds at h
      injection h with h
      rw [← h]
      exact hc
  | cons p rest ih =>
      intro db db1 hc h
      obtain ⟨l, f⟩ := p
      obtain ⟨dbm, b, heq, hcm⟩ := add_item_clean db l f hc
      unfold applyAdds at h
      rw [heq] at h
      exact ih dbm db1 hcm h

/-- Claim C8: after any sequence of adds to a fresh store followed by
`save()`, a fresh `load` of the same files succeeds (the consistency check
passes) and yields the identical index and mapping - hence the identical
label set, identical live count, and identical search results for every
query vector, `k` and threshold under any ANN oracle. -/
theorem c8_roundtrip (pairs : List (String × Vec)) (db1 : DB)
    (h : applyAdds VectorDB.empty pairs = .ok db1) :
    ∃ idx m, VectorDB.load_db (DB.save db1).disk = .ok (idx, m) ∧
      idx = db1.index ∧ m = db1.mapping ∧
      m.map Prod.snd = db1.mapping.map Prod.snd ∧
      m.length = db1.count ∧
      (∀ knn f k s, DB.search ⟨idx, m, (DB.save db1).disk⟩ knn f k s = db1.search knn f k s) := by
  obtain ⟨hdel, hids, hkeys, hcnt, hcap, hlnd⟩ := applyAdds_clean pairs VectorDB.empty db1 clean_empty h
  refine ⟨db1.index, db1.mapping, ?_, rfl, rfl, rfl, rfl, fun knn f k s => rfl⟩
  unfold VectorDB.load_db DB.save
  dsimp only
  rw [if_pos ?_]
  rw [List.all_eq_true]
  intro fid hfid
  rw [hkeys, hcnt] at hfid
  have hmem : fid ∈ db1.index.ids_list := by
    rw [hids]
    exact hfid
  exact List.elem_eq_true_of_mem hmem

/-- Witness for C2 at concrete inputs: adding two fresh labels to a fresh
store succeeds with count 2 within capacity. -/
theorem c2_capacity_growth_witness :
    ∃ db1, VectorDB.empty.add_items ["a", "b"] [[1], [2]] true = .ok (db1, 2) ∧
      db1.count = 2 ∧
      db1.count ≤ db1.capacity ∧
      (VectorDB.empty.capacity < VectorDB.empty.count + 2 →
        VectorDB.empty.capacity < db1.capacity ∧
        db1.capacity = VectorDB.empty.capacity + CAPACITY) ∧
      (VectorDB.empty.count + 2 ≤ VectorDB.empty.capacity → db1.capacity = VectorDB.empty.capacity) ∧
      Clean db1 :=
  c2_capacity_growth VectorDB.empty ["a", "b"] [[1], [2]] clean_empty (by decide) (by decide)
    (by decide) (by decide) (by decide)

/-- Witness for C8 at concrete inputs: two adds, then save and reload,
giving back the same two-item store. -/
theorem c8_roundtrip_witness :
    ∃ idx m, VectorDB.load_db (DB.save dbTwo).disk = .ok (idx, m) ∧
      idx = dbTwo.index ∧ m = dbTwo.mapping ∧
      m.map Prod.snd = dbTwo.mapping.map Prod.snd ∧
      m.length = dbTwo.count ∧
      (∀ knn f k s, DB.search ⟨idx, m, (DB.save dbTwo).disk⟩ knn f k s = dbTwo.search knn f k s) :=
  c8_roundtrip [("a", [1]), ("b", [2])] dbTwo (by rfl)
